import Mathlib

/-!
Verification of the SnapOrtho CasePrep retrieval-and-refinement pipeline.

The Python sources (`vector_search.py`, `gpt_refiner.py`, `query_refiner.py`,
`main.py`) are shallowly embedded below.  Strings are modelled as Lean
`String`/`List Char`; Python `float` similarity scores are modelled as `ℚ`;
every external call (OpenAI embedding / chat completion, Pinecone query) is
modelled as an explicit function argument or as pre-supplied response data, so
that each embedded function is a pure, executable Lean `def`.
-/

/-! ### Python string primitives

Character-level models of the Python `str` operations used by the pipeline
(`str.strip`, `str.lower`, `str.split(" ")`, `" ".join`, `str.replace`,
and the `re.sub` patterns of `gpt_refiner.py`).  All corpus text handled by
the pipeline is ASCII-oriented, and the models below agree with CPython on
the ASCII fragment.
-/

set_option maxRecDepth 4000

/-- Python `str.isspace` / regex `\s` membership for a single character
(ASCII whitespace: space, tab, newline, carriage return, vertical tab,
form feed). -/
def pyIsSpace (c : Char) : Bool :=
  c == ' ' || c == '\t' || c == '\n' || c == '\r' || c == '\x0b' || c == '\x0c'

/-- Python `str.strip()` on a character list: drop whitespace from both ends. -/
def pyStripL (l : List Char) : List Char :=
  ((l.dropWhile pyIsSpace).reverse.dropWhile pyIsSpace).reverse

/-- Python `str.strip()`. -/
def pyStrip (s : String) : String :=
  ⟨pyStripL s.toList⟩

/-- Python `str.lower()` (ASCII fragment). -/
def pyLower (s : String) : String :=
  ⟨s.toList.map Char.toLower⟩

/-- Python `s.replace("\n", " ")`. -/
def replaceNewlines (s : String) : String :=
  ⟨s.toList.map (fun c => if c == '\n' then ' ' else c)⟩

/-- Python `s.split(sep)` for a single-character separator: split at every
occurrence, keeping empty fields (e.g. `"a  b".split(" ") == ["a", "", "b"]`). -/
def splitOnChar (sep : Char) : List Char → List (List Char)
  | [] => [[]]
  | c :: rest =>
    if c == sep then [] :: splitOnChar sep rest
    else
      match splitOnChar sep rest with
      | [] => [[c]]
      | p :: ps => (c :: p) :: ps

/-- Python `s.split(" ")`. -/
def splitOnSpace (l : List Char) : List (List Char) :=
  splitOnChar ' ' l

/-- Python slicing `s[:n]`: the first `n` characters. -/
def pyTake (s : String) (n : Nat) : String :=
  ⟨s.toList.take n⟩

/-- Python `s.endswith(c)` for a single character. -/
def endsWithChar (s : String) (c : Char) : Bool :=
  s.toList.getLast? == some c

/-- Python `" ".join(parts)`. -/
def joinSpace : List (List Char) → List Char
  | [] => []
  | [p] => p
  | p :: q :: rest => p ++ ' ' :: joinSpace (q :: rest)

/-- Python `s.split()` (no separator): whitespace-delimited words, no empty
fields.  Used only to state the spec's reading of the dedup signature. -/
def pyWords (l : List Char) : List (List Char) :=
  (l.splitOnP pyIsSpace).filter (fun w => !w.isEmpty)

/-! ### `gpt_refiner._strip_noise` and `_normalize_space`

`_strip_noise` is the chain of `re.sub` passes of `gpt_refiner.py`:
code-fence removal, HTML-tag removal, leading-bullet removal (multiline),
squashing of `[_>#]` runs, and whitespace collapsing, followed by `strip()`.
Each pass is embedded as a character-list scan agreeing with CPython's
leftmost, non-overlapping `re.sub` semantics for that pattern.
-/

/-- Split at every non-overlapping occurrence of a triple backtick,
mirroring the left-to-right scan that `re.sub` performs for the pattern
of three backticks. -/
def fenceSplit : List Char → List (List Char)
  | '`' :: '`' :: '`' :: rest => [] :: fenceSplit rest
  | c :: rest =>
    match fenceSplit rest with
    | [] => [[c]]
    | p :: ps => (c :: p) :: ps
  | [] => [[]]

/-- Reassemble the pieces of `fenceSplit`, replacing each delimited
code block by a single space; a trailing unmatched fence is restored
verbatim (the regex needs a closing fence to match). -/
def joinFences : List (List Char) → List Char
  | [] => []
  | [p] => p
  | [p, q] => p ++ '`' :: '`' :: '`' :: q
  | p :: _ :: r :: rest => p ++ ' ' :: joinFences (r :: rest)

/-- Python `re.sub(r"`{3}.*?`{3}", " ", s, flags=re.S)`. -/
def stripCodeFences (l : List Char) : List Char :=
  joinFences (fenceSplit l)

/-- Scanner for `re.sub(r"<[^>]+>", " ", s)`.  `none` is the ordinary state;
`some buf` means a `<` has been read and `buf` holds the characters after it
so far.  On `>` with a non-empty buffer the whole span becomes one space; on
`>` with an empty buffer the pattern cannot match at that `<` (it needs at
least one inner character), so both characters pass through; a `<` left open
at the end of input passes through verbatim. -/
def stripTagsGo : Option (List Char) → List Char → List Char
  | none, [] => []
  | none, c :: rest =>
    if c == '<' then stripTagsGo (some []) rest
    else c :: stripTagsGo none rest
  | some buf, [] => '<' :: buf
  | some buf, c :: rest =>
    if c == '>' then
      if buf.isEmpty then '<' :: '>' :: stripTagsGo none rest
      else ' ' :: stripTagsGo none rest
    else stripTagsGo (some (buf ++ [c])) rest

/-- Python `re.sub(r"<[^>]+>", " ", s)`. -/
def stripTags (l : List Char) : List Char :=
  stripTagsGo none l

/-- The bullet characters of the pattern `^[-*•]+\s*` (`re.M`). -/
def isBulletChar (c : Char) : Bool :=
  c == '-' || c == '*' || c == '•'

/-- Scanner state for `re.sub(r"^[-*•]+\s*", "", s, flags=re.M)`:
`normal atStart` is an ordinary position (`atStart` = line start, i.e.
string start or just after a newline); `bullets` is inside the bullet run
being deleted; `ws lastNl` is inside the trailing whitespace being deleted
(`lastNl` = the last deleted whitespace character was a newline, so the next
position is again a line start). -/
inductive SBState where
  | normal (atStart : Bool)
  | bullets
  | ws (lastNl : Bool)

/-- Scanner for `re.sub(r"^[-*•]+\s*", "", s, flags=re.M)`: at each line
start, a run of bullet characters plus all following whitespace (greedy,
possibly spanning newlines) is deleted. -/
def stripBulletsGo : SBState → List Char → List Char
  | .normal _, [] => []
  | .normal atStart, c :: rest =>
    if atStart && isBulletChar c then stripBulletsGo .bullets rest
    else if c == '\n' then '\n' :: stripBulletsGo (.normal true) rest
    else c :: stripBulletsGo (.normal false) rest
  | .bullets, [] => []
  | .bullets, c :: rest =>
    if isBulletChar c then stripBulletsGo .bullets rest
    else if pyIsSpace c then stripBulletsGo (.ws (c == '\n')) rest
    else c :: stripBulletsGo (.normal false) rest
  | .ws _, [] => []
  | .ws lastNl, c :: rest =>
    if pyIsSpace c then stripBulletsGo (.ws (c == '\n')) rest
    else if lastNl && isBulletChar c then stripBulletsGo .bullets rest
    else c :: stripBulletsGo (.normal false) rest

/-- Python `re.sub(r"^[-*•]+\s*", "", s, flags=re.M)`. -/
def stripLeadingBullets (l : List Char) : List Char :=
  stripBulletsGo (.normal true) l

/-- The character class `[_>#]`. -/
def isRuleChar (c : Char) : Bool :=
  c == '_' || c == '>' || c == '#'

/-- Scanner for `re.sub(r"[_>#]{2,}", " ", s)`: each maximal run of at least
two characters from `[_>#]` becomes one space — a lone such character stays.
`inRun` means the current run has already been replaced by its space, so
further run characters are dropped. -/
def squashRuleRunsGo (inRun : Bool) : List Char → List Char
  | [] => []
  | c :: rest =>
    if inRun && isRuleChar c then squashRuleRunsGo true rest
    else if isRuleChar c then
      match rest with
      | [] => [c]
      | d :: _ =>
        if isRuleChar d then ' ' :: squashRuleRunsGo true rest
        else c :: squashRuleRunsGo false rest
    else c :: squashRuleRunsGo false rest

/-- Python `re.sub(r"[_>#]{2,}", " ", s)`. -/
def squashRuleRuns (l : List Char) : List Char :=
  squashRuleRunsGo false l

/-- Scanner for `re.sub(r"\s+", " ", s)`: collapse each whitespace run to a
single space; `prevWs` means the current run already emitted its space. -/
def collapseWsGo (prevWs : Bool) : List Char → List Char
  | [] => []
  | c :: rest =>
    if pyIsSpace c then
      if prevWs then collapseWsGo true rest
      else ' ' :: collapseWsGo true rest
    else c :: collapseWsGo false rest

/-- Python `re.sub(r"\s+", " ", s)`: collapse each whitespace run to one
space. -/
def collapseWs (l : List Char) : List Char :=
  collapseWsGo false l

/-- `gpt_refiner._strip_noise`. -/
def stripNoise (s : String) : String :=
  ⟨pyStripL (collapseWs (squashRuleRuns (stripLeadingBullets
      (stripTags (stripCodeFences s.toList)))))⟩

/-- `gpt_refiner._normalize_space`: `re.sub(r"\s+", " ", s.strip())`. -/
def normalizeSpace (s : String) : String :=
  ⟨collapseWs (pyStripL s.toList)⟩

/-! ### `gpt_refiner` question/answer formatting -/

/-- The interrogative lead words of the `_ensure_question_mark` regex. -/
def interrogWords : List String :=
  ["what", "how", "why", "when", "where", "which", "list", "name", "define",
   "describe", "explain", "indications", "contraindications", "steps", "complications"]

/-- Python regex `\w` membership (ASCII fragment): letters, digits, underscore. -/
def isWordChar (c : Char) : Bool :=
  c.isAlpha || c.isDigit || c == '_'

/-- Does `l` start with the word `w` followed by a word boundary (`w\b`)? -/
def startsWithWordB (w l : List Char) : Bool :=
  match w, l with
  | [], [] => true
  | [], c :: _ => !isWordChar c
  | _ :: _, [] => false
  | wc :: wr, c :: rest => wc == c && startsWithWordB wr rest

/-- The `re.search(r"^(what|how|...)\b", q, re.I)` test of
`_ensure_question_mark`: case-insensitive anchored match of one of the
interrogative lead words followed by a word boundary. -/
def interrogMatch (q : String) : Bool :=
  interrogWords.any (fun w => startsWithWordB w.toList (q.toList.map Char.toLower))

/-- `gpt_refiner._ensure_question_mark`. -/
def ensureQuestionMark (q : String) : String :=
  let q := normalizeSpace q
  if q ≠ "" ∧ ¬endsWithChar q '?' ∧ interrogMatch q then q ++ "?" else q

/-- `gpt_refiner._format_qa`. -/
def formatQA (q a : String) : String :=
  let q := ensureQuestionMark q
  let a := normalizeSpace a
  "Q: " ++ q ++ " A: " ++ (if a ≠ "" then a else "(answer not provided)")

/-- One element of the `pimpQuestions` array returned by the model inside
`_reformat_snippets`: either a JSON object with possibly-missing
`question`/`answer` string fields, or a non-object value (skipped). -/
inductive RawQAObj where
  | obj (question answer : Option String)
  | notDict
deriving DecidableEq, Repr

/-- The question-processing loop of `gpt_refiner._reformat_snippets`
(lines 311-324): skip non-objects and blank questions, format with
`_format_qa`, and drop any pair whose lowercased whitespace-normalized
`Q: ... A: ...` string was already seen. -/
def processQAsLoop : List RawQAObj → List String → List String
  | [], _ => []
  | .notDict :: rest, seen => processQAsLoop rest seen
  | .obj qo ao :: rest, seen =>
    let q := qo.getD ""
    let a := ao.getD ""
    if pyStrip q = "" then processQAsLoop rest seen
    else
      let formatted := formatQA q a
      let key := pyLower (normalizeSpace formatted)
      if key ∈ seen then processQAsLoop rest seen
      else formatted :: processQAsLoop rest (key :: seen)

/-- The `pimpQuestions` list produced by `_reformat_snippets` from the raw
model output. -/
def processQAs (rawQs : List RawQAObj) : List String :=
  processQAsLoop rawQs []

/-! ### `gpt_refiner._prepare_snippets` -/

/-- `PER_SNIP_LIMIT` of `gpt_refiner.py`. -/
def PER_SNIP_LIMIT : Nat := 800

/-- `SNIP_CHAR_BUDGET` of `gpt_refiner.py`. -/
def SNIP_CHAR_BUDGET : Nat := 8000

/-- One raw snippet as accepted by `_prepare_snippets`: a metadata dict with
optional `text`/`source` fields, a plain string, or any other value
(skipped). -/
inductive RawSnip where
  | dict (text source : Option String)
  | str (s : String)
  | other
deriving DecidableEq, Repr

/-- The per-snippet cleaning of `_prepare_snippets`: build the string (with
`[Source: ...]` suffix for dicts), strip noise, drop if shorter than 10
characters, and cap at `PER_SNIP_LIMIT` characters.  `none` means the loop
`continue`s without touching the budget. -/
def cleanSnip (raw : RawSnip) : Option String :=
  let s? : Option String :=
    match raw with
    | .other => none
    | .str s => some s
    | .dict text source =>
      let base := pyStrip (text.getD "")
      let src := pyStrip (source.getD "")
      some (if src ≠ "" then base ++ " [Source: " ++ src ++ "]" else base)
  match s? with
  | none => none
  | some s =>
    let s := stripNoise s
    if s.length < 10 then none else some (pyTake s PER_SNIP_LIMIT)

/-- The accumulation loop of `_prepare_snippets`: `nonempty` is whether
`cleaned` already holds a snippet, `total` the running character count; the
first fitting test failure `break`s, dropping the rest of the input. -/
def prepGo (charBudget : Nat) : List RawSnip → Bool → Nat → List String
  | [], _, _ => []
  | raw :: rest, nonempty, total =>
    match cleanSnip raw with
    | none => prepGo charBudget rest nonempty total
    | some s =>
      let L := s.length + 1
      if nonempty ∧ total + L > charBudget then []
      else s :: prepGo charBudget rest true (total + L)

/-- `gpt_refiner._prepare_snippets`. -/
def prepareSnippets (snips : List RawSnip) (charBudget : Nat) : List String :=
  prepGo charBudget snips false 0

/-! ### `gpt_refiner._filter_irrelevant_snippets`

The model interaction is summarized by the `keepMask` list extracted from
the tool-call arguments: a missing tool call yields `[True] * len(snippets)`
in the source and an unparsable one yields `[]`, both of which are values of
the `keepMask` argument here.
-/

/-- Apply a keep-mask to a snippet list (`[s for s, keep in zip(...) if keep]`). -/
def applyMask (snippets : List String) (mask : List Bool) : List String :=
  ((snippets.zip mask).filter (fun p => p.2)).map (fun p => p.1)

/-- `gpt_refiner._filter_irrelevant_snippets`, given the `keepMask` the model
round-trip produced. -/
def filterIrrelevantSnippets (keepMask : List Bool) (snippets : List String) : List String :=
  if snippets.isEmpty then []
  else
    let mask := if keepMask.length ≠ snippets.length
      then List.replicate snippets.length true else keepMask
    let kept := applyMask snippets mask
    if kept.isEmpty then snippets else kept

/-! ### `vector_search._build_metadata_filter_from_query` -/

/-- A Pinecone metadata filter value as built by
`_build_metadata_filter_from_query`: `{field: {"$eq": v}}`,
`{field: {"$in": [...]}}`, or `{"$and": [...]}`. -/
inductive MetaFilter where
  | eqF (field value : String)
  | inF (field : String) (values : List String)
  | andF (clauses : List MetaFilter)
deriving Repr

mutual

/-- Decidable equality of `MetaFilter` (the nested `List` blocks automatic
derivation). -/
def MetaFilter.decEq : (a b : MetaFilter) → Decidable (a = b)
  | .eqF f v, .eqF g w =>
    if h : f = g ∧ v = w then isTrue (by rw [h.1, h.2])
    else isFalse (fun he => by cases he; exact h ⟨rfl, rfl⟩)
  | .inF f vs, .inF g ws =>
    if h : f = g ∧ vs = ws then isTrue (by rw [h.1, h.2])
    else isFalse (fun he => by cases he; exact h ⟨rfl, rfl⟩)
  | .andF cs, .andF ds =>
    match MetaFilter.decEqList cs ds with
    | isTrue h => isTrue (by rw [h])
    | isFalse h => isFalse (fun he => by cases he; exact h rfl)
  | .eqF _ _, .inF _ _ => isFalse (fun h => by cases h)
  | .eqF _ _, .andF _ => isFalse (fun h => by cases h)
  | .inF _ _, .eqF _ _ => isFalse (fun h => by cases h)
  | .inF _ _, .andF _ => isFalse (fun h => by cases h)
  | .andF _, .eqF _ _ => isFalse (fun h => by cases h)
  | .andF _, .inF _ _ => isFalse (fun h => by cases h)

/-- Decidable equality of `List MetaFilter`. -/
def MetaFilter.decEqList : (l1 l2 : List MetaFilter) → Decidable (l1 = l2)
  | [], [] => isTrue rfl
  | [], _ :: _ => isFalse (fun h => by cases h)
  | _ :: _, [] => isFalse (fun h => by cases h)
  | a :: l, b :: m =>
    match MetaFilter.decEq a b, MetaFilter.decEqList l m with
    | isTrue h1, isTrue h2 => isTrue (by rw [h1, h2])
    | isFalse h1, _ => isFalse (fun he => by cases he; exact h1 rfl)
    | _, isFalse h2 => isFalse (fun he => by cases he; exact h2 rfl)

end

instance : DecidableEq MetaFilter := MetaFilter.decEq

/-- Look a key up in an association-list model of a Python dict. -/
def lookupAssoc {α : Type} (m : List (String × α)) (t : String) : Option α :=
  (m.find? (fun e => e.1 == t)).map (fun e => e.2)

/-- `specialty_map` of `vector_search.py`. -/
def specialtyMap : List (String × String) :=
  [("recon", "recon"), ("adult reconstruction", "recon"), ("arthroplasty", "recon"),
   ("trauma", "trauma"), ("sports", "sports"),
   ("foot & ankle", "footankle"), ("foot and ankle", "footankle"), ("footankle", "footankle"),
   ("hand", "hand"), ("peds", "peds"), ("pediatrics", "peds"), ("spine", "spine"),
   ("shoulder", "shoulderelbow"), ("shoulder/elbow", "shoulderelbow"),
   ("shoulderelbow", "shoulderelbow"), ("onc", "onc")]

/-- `region_map` of `vector_search.py`. -/
def regionMap : List (String × List String) :=
  [("knee", ["knee", "lowerextremity::knee", "lowerextremity",
             "lowerextremity::lowerextremityknee"]),
   ("hip", ["hip", "lowerextremity::hip", "pelvis"]),
   ("ankle", ["ankle", "footankle", "lowerextremity::lowerextremityankle"]),
   ("foot", ["foot", "footankle", "forefoot", "midfoot"]),
   ("footankle", ["footankle", "ankle", "foot", "lowerextremity::lowerextremityankle"]),
   ("pelvis", ["pelvis", "acetabulum"]),
   ("patella", ["patella"]),
   ("elbow", ["elbow"]),
   ("shoulder", ["shoulder", "shouldergirdle", "shoulderelbow"]),
   ("spine", ["spine", "thoracic spine", "lumbar spine", "cervical spine"])]

/-- The token list
`[t.strip().lower() for t in refined_query.split(",") if t.strip()]`. -/
def queryTokens (refinedQuery : String) : List String :=
  ((splitOnChar ',' refinedQuery.toList).map List.asString).filterMap (fun t =>
    let s := pyStrip t
    if s = "" then none else some (pyLower s))

/-- Python `set.add` modelled on an insertion-ordered duplicate-free list. -/
def insertUnique (l : List String) (x : String) : List String :=
  if x ∈ l then l else l ++ [x]

/-- Python `set.update` modelled on an insertion-ordered duplicate-free list. -/
def insertAllUnique (l : List String) (xs : List String) : List String :=
  xs.foldl insertUnique l

/-- One iteration of the token loop of `_build_metadata_filter_from_query`:
`if t in specialty_map: add`, `if t in region_map: update`. -/
def selStep (acc : List String × List String) (t : String) : List String × List String :=
  (match lookupAssoc specialtyMap t with
   | some v => insertUnique acc.1 v
   | none => acc.1,
   match lookupAssoc regionMap t with
   | some vs => insertAllUnique acc.2 vs
   | none => acc.2)

/-- The token loop of `_build_metadata_filter_from_query`: accumulate
`selected_specialties` and `selected_regions`. -/
def selectedSets (tokens : List String) : List String × List String :=
  tokens.foldl selStep ([], [])

/-- Build one filter clause from a non-empty value set: `$eq` when the set is
a singleton, `$in` otherwise. -/
def mkClause (field : String) (vals : List String) : MetaFilter :=
  match vals with
  | [v] => .eqF field v
  | vs => .inF field vs

/-- `vector_search._build_metadata_filter_from_query`. -/
def buildMetadataFilterFromQuery (refinedQuery : String) : Option MetaFilter :=
  let tokens := queryTokens refinedQuery
  if tokens.isEmpty then none
  else
    let sel := selectedSets tokens
    let clauses :=
      (if sel.1.isEmpty then [] else [mkClause "specialty" sel.1]) ++
      (if sel.2.isEmpty then [] else [mkClause "region" sel.2])
    match clauses with
    | [] => none
    | [c] => some c
    | cs => some (.andF cs)

/-! ### `vector_search._score_matches` and `get_case_snippets` -/

/-- `MIN_SCORE` of `vector_search.py`, the decimal 0.52 (similarity scores
are modelled as rationals in place of Python floats; the value is given in
lowest terms so that score comparisons evaluate inside the kernel). -/
def MIN_SCORE : ℚ := Rat.mk' 13 25 (by norm_num) (by norm_num)

/-- `MIN_SCORE` is the decimal 0.52. -/
theorem MIN_SCORE_eq : MIN_SCORE = 52 / 100 := by
  rw [MIN_SCORE, Rat.mk'_eq_divInt, Rat.divInt_eq_div]
  norm_num

/-- The metadata dict of one Pinecone match, with the fields
`_score_matches` reads. -/
structure MatchMeta where
  text : Option String
  source : Option String
  specialty : Option String
  region : Option String
  diagnosis : Option String
  procedure : Option String
deriving DecidableEq, Repr

/-- One Pinecone match: a similarity score plus metadata. -/
structure VMatch where
  score : ℚ
  metadata : MatchMeta
deriving DecidableEq, Repr

/-- One cleaned snippet item as returned by `_score_matches`. -/
structure SnippetItem where
  text : String
  source : Option String
  specialty : Option String
  region : Option String
  diagnosis : Option String
  procedure : Option String
  score : ℚ
deriving DecidableEq, Repr

/-- `meta.get("text", "").replace("\n", " ").strip()`. -/
def cleanMatchText (text : String) : String :=
  pyStrip (replaceNewlines text)

/-- The dedup signature of `_score_matches`:
`" ".join(raw_text.lower().split(" ")[:8])`. -/
def dedupSig (text : String) : String :=
  ⟨joinSpace (((splitOnSpace (pyLower (cleanMatchText text)).toList)).take 8)⟩

/-- The signature as the spec words it: lowercased text, first 8
*whitespace-delimited* tokens, joined.  Stated from the spec to compare
against the source's `dedupSig`, which splits on single space characters. -/
def dedupSigSpec (text : String) : String :=
  ⟨joinSpace ((pyWords (pyLower (cleanMatchText text)).toList).take 8)⟩

/-- The dedup signature of one match. -/
def sigOfMatch (m : VMatch) : String :=
  dedupSig (m.metadata.text.getD "")

/-- The score/text filter of `_score_matches`:
`m["score"] >= MIN_SCORE and m["metadata"].get("text")`. -/
def keepMatch (m : VMatch) : Bool :=
  decide (MIN_SCORE ≤ m.score) && (m.metadata.text.getD "" != "")

/-- The clean item built for one kept match. -/
def toItem (m : VMatch) : SnippetItem :=
  { text := cleanMatchText (m.metadata.text.getD "")
    source := m.metadata.source
    specialty := m.metadata.specialty
    region := m.metadata.region
    diagnosis := m.metadata.diagnosis
    procedure := m.metadata.procedure
    score := m.score }

/-- The `seen`-set dedup loop of `_score_matches`. -/
def dedupLoop : List VMatch → List String → List SnippetItem
  | [], _ => []
  | m :: rest, seen =>
    let sig := sigOfMatch m
    if sig ∈ seen then dedupLoop rest seen
    else toItem m :: dedupLoop rest (sig :: seen)

/-- `vector_search._score_matches`. -/
def scoreMatches (ms : List VMatch) : List SnippetItem :=
  (dedupLoop (ms.filter keepMatch) []).take 500

/-- `vector_search.get_case_snippets`.  The Pinecone round trip for the
embedded query vector is modelled by `queryFn`, mapping an optional metadata
filter to the match list the index returns. -/
def getCaseSnippets (queryFn : Option MetaFilter → List VMatch)
    (refinedQuery : String) : List SnippetItem :=
  match buildMetadataFilterFromQuery refinedQuery with
  | some f =>
    let snippets := scoreMatches (queryFn (some f))
    if snippets.isEmpty then scoreMatches (queryFn none) else snippets
  | none => scoreMatches (queryFn none)

/-! ### `query_refiner.refine_query` -/

/-- `query_refiner.refine_query`.  The OpenAI chat round trip inside the
`try` block is modelled by `outcome`: `.ok content` is a completed call whose
message content is `content`, `.error e` is any raised exception with message
`e` (caught by the `except` clause). -/
def refineQuery (outcome : Except String String) (userPrompt : String) : String :=
  if pyStrip userPrompt = "" then ""
  else
    match outcome with
    | .ok content => pyStrip content
    | .error e => "❌ Error: " ++ e

/-! ### `main.case_prep` -/

/-- The external pipeline stages `main.case_prep` can invoke. -/
inductive ExtCall where
  | refineCall
  | retrieveCall
  | caseprepCall
  | anatomyCall
deriving DecidableEq, Repr

/-- The response shape of `POST /case-prep`; `α` is the opaque payload of the
anatomy branch. -/
structure CasePrepResponse (α : Type) where
  pimpQuestions : List String
  otherUsefulFacts : List String
  anatomy : Option α
deriving DecidableEq, Repr

/-- `main.case_prep`.  Each downstream stage is a function argument
(`refineFn` = `refine_query`, `retrieveFn` = `get_case_snippets`,
`caseprepFn` = `refine_case_snippets` returning the two response lists,
`anatomyFn` = `run_pipeline`); the second component of the result records
which stages were invoked, in order. -/
def casePrep {α : Type} (refineFn : String → String)
    (retrieveFn : String → List SnippetItem)
    (caseprepFn : String → List SnippetItem → List String × List String)
    (anatomyFn : String → List SnippetItem → α)
    (promptRaw : String) : CasePrepResponse α × List ExtCall :=
  let prompt := pyStrip promptRaw
  if prompt = "" then
    (⟨[], ["❌ No prompt provided"], none⟩, [])
  else
    let refined := refineFn prompt
    let snippets := retrieveFn refined
    if snippets.isEmpty then
      (⟨[], ["❌ No relevant content found."], none⟩, [.refineCall, .retrieveCall])
    else
      let cp := caseprepFn prompt snippets
      let an := anatomyFn prompt snippets
      (⟨cp.1, cp.2, some an⟩, [.refineCall, .retrieveCall, .caseprepCall, .anatomyCall])

/-! ### `ImportanceRanker` (spec §4.6) -/

/-- A rank-cache entry key: the spec keys entries by stable hashes of the
case text, the label, and the canonical JSON of the item list; hashing is
modelled by keying on the data itself. -/
abbrev RankKey := String × String × List String

/-- The process-wide rank cache: key to stored score vector. -/
abbrev RankCache := List (RankKey × List ℚ)

/-- Cache lookup. -/
def rankCacheFind (cache : RankCache) (key : RankKey) : Option (List ℚ) :=
  (cache.find? (fun e => e.1 == key)).map (fun e => e.2)

/-- Modelled from the spec: the defensive repair step of
`ImportanceRanker` (spec §4.6), whose implementation is not under `src/`.
The model's score vector is truncated to `n` entries if longer and padded
with the fixed default 50 if shorter. -/
def repairScores (scores : List ℚ) (n : Nat) : List ℚ :=
  scores.take n ++ List.replicate (n - scores.length) (50 : ℚ)

/-- Stable descending insertion by score: an element is placed before the
first strictly smaller score, so equal scores keep their original relative
order. -/
def insertDescStable (p : ℚ × String) : List (ℚ × String) → List (ℚ × String)
  | [] => [p]
  | q :: rest => if q.1 < p.1 then p :: q :: rest else q :: insertDescStable p rest

/-- Stable sort, descending by score. -/
def sortDescStable (l : List (ℚ × String)) : List (ℚ × String) :=
  l.foldr insertDescStable []

/-- Modelled from the spec: `ImportanceRanker.rank` (spec §4.6) has no
implementation under `src/`.  Per the spec: compute the cache key; on a hit
reuse the stored score vector, on a miss repair the model's vector
(`modelScores`) to the item count and store it; then stable-sort the items
by score, descending, and return them.  The updated cache is returned
alongside. -/
def ImportanceRanker.rank (cache : RankCache) (modelScores : List ℚ)
    (caseText label : String) (items : List String) : List String × RankCache :=
  let key : RankKey := (caseText, label, items)
  let scores :=
    match rankCacheFind cache key with
    | some v => v
    | none => repairScores modelScores items.length
  let cache' :=
    match rankCacheFind cache key with
    | some _ => cache
    | none => (key, repairScores modelScores items.length) :: cache
  ((sortDescStable (scores.zip items)).map (fun p => p.2), cache')

/-- A well-formed rank cache: every stored score vector is aligned with the
item list of its key, as entries written by `ImportanceRanker.rank` are. -/
def WFRankCache (cache : RankCache) : Prop :=
  ∀ e ∈ cache, e.2.length = e.1.2.2.length

/-! ### Declarative forms used in the theorem statements -/

/-- First-seen-wins dedup by key: keep each element and remove every later
element with the same key.  This is the declarative form of the `seen`-set
loops in `_score_matches` and `_reformat_snippets`. -/
def firstSeenBy {α β : Type} [DecidableEq β] (f : α → β) : List α → List α
  | [] => []
  | x :: xs => x :: firstSeenBy f (xs.filter (fun y => f y ≠ f x))
termination_by l => l.length
decreasing_by
  simp only [List.length_cons, Nat.lt_succ_iff]
  exact List.length_filter_le _ _

/-- A generic `seen`-set dedup loop: skip an element whose key was seen,
otherwise emit `out x` and record the key. -/
def seenLoop {α β γ : Type} [DecidableEq β] (key : α → β) (out : α → γ) :
    List α → List β → List γ
  | [], _ => []
  | x :: xs, seen =>
    if key x ∈ seen then seenLoop key out xs seen
    else out x :: seenLoop key out xs (key x :: seen)

/-- The formatted `Q: ... A: ...` string a raw model pair contributes, or
`none` when the loop in `_reformat_snippets` skips it (non-object, or blank
question). -/
def qaFormatted : RawQAObj → Option String
  | .notDict => none
  | .obj qo ao =>
    if pyStrip (qo.getD "") = "" then none
    else some (formatQA (qo.getD "") (ao.getD ""))

/-- The dedup key of the question loop in `_reformat_snippets`. -/
def qaKey (s : String) : String :=
  pyLower (normalizeSpace s)

/-- The character cost `_prepare_snippets` accounts for a list of cleaned
snippets: each snippet's length plus one. -/
def packCost (l : List String) : Nat :=
  (l.map (fun s => s.length + 1)).sum

/-- The `_prepare_snippets` accumulation loop restricted to already-cleaned
snippet strings. -/
def prefixGo (charBudget : Nat) : List String → Bool → Nat → List String
  | [], _, _ => []
  | s :: rest, nonempty, total =>
    let L := s.length + 1
    if nonempty ∧ total + L > charBudget then []
    else s :: prefixGo charBudget rest true (total + L)

/-- Greedy bin-packing as the spec words it: append each snippet to the
current batch while it fits, otherwise close the batch and start a new one;
batches are never reordered.  Stated from the spec to compare against the
source's `_prepare_snippets`. -/
def binPackGo (charBudget : Nat) : List String → List String → Nat → List (List String)
  | [], cur, _ => if cur.isEmpty then [] else [cur]
  | s :: rest, cur, total =>
    let L := s.length + 1
    if ¬cur.isEmpty ∧ total + L > charBudget then
      cur :: binPackGo charBudget rest [s] L
    else binPackGo charBudget rest (cur ++ [s]) (total + L)

/-- Greedy bin-packing of cleaned snippets under a character budget, per the
spec's description of the ChunkedExtractor. -/
def greedyBinPackSpec (charBudget : Nat) (l : List String) : List (List String) :=
  binPackGo charBudget l [] 0

/-! ### Supporting lemmas -/

/-- Unfolding `applyMask` one element at a time. -/
theorem applyMask_cons (a : String) (l : List String) (b : Bool) (m : List Bool) :
    applyMask (a :: l) (b :: m) = if b then a :: applyMask l m else applyMask l m := by
  by_cases hb : b <;> simp [applyMask, hb]

/-- Masking with an all-`True` mask of the right length keeps everything. -/
theorem applyMask_replicate_true (l : List String) :
    applyMask l (List.replicate l.length true) = l := by
  induction l with
  | nil => rfl
  | cons a t ih => simp [List.replicate, applyMask_cons, ih]

/-- Masking yields a subsequence of the snippet list. -/
theorem applyMask_sublist (l : List String) (m : List Bool) :
    (applyMask l m).Sublist l := by
  induction l generalizing m with
  | nil => simp [applyMask]
  | cons a t ih =>
    cases m with
    | nil => simp [applyMask]
    | cons b bs =>
      rw [applyMask_cons]
      by_cases hb : b
      · simpa [hb] using (ih bs).cons₂ a
      · simpa [hb] using (ih bs).cons a

/-! ### C1 — retrieval fallback invariant -/

/-- C1: if the refined query produces a non-null metadata filter and the
filtered Pinecone query yields zero snippets after score-filtering and
dedup, `get_case_snippets` re-issues the query without the filter and
returns that unfiltered result — so a filter matching zero vectors gives
the same snippets as an equivalent unfiltered call. -/
theorem retrieve_fallback_invariant (queryFn : Option MetaFilter → List VMatch)
    (q : String) (f : MetaFilter)
    (hf : buildMetadataFilterFromQuery q = some f)
    (hempty : scoreMatches (queryFn (some f)) = []) :
    getCaseSnippets queryFn q = scoreMatches (queryFn none) := by
  simp [getCaseSnippets, hf, hempty]

/-- Witness for C1 at a concrete query and an index with no matches. -/
theorem retrieve_fallback_invariant_witness :
    buildMetadataFilterFromQuery "knee" =
      some (.inF "region" ["knee", "lowerextremity::knee", "lowerextremity",
        "lowerextremity::lowerextremityknee"]) ∧
    getCaseSnippets (fun _ => []) "knee" = scoreMatches [] :=
  ⟨by decide,
   retrieve_fallback_invariant (fun _ => []) "knee"
     (.inF "region" ["knee", "lowerextremity::knee", "lowerextremity",
       "lowerextremity::lowerextremityknee"]) (by decide) (by decide)⟩

/-! ### C2 — relevance filter fails open -/

/-- C2: on a non-empty snippet list the relevance filter never returns an
empty list; a keep-mask of the wrong length keeps every snippet, and a mask
that would leave nothing keeps every snippet. -/
theorem relevance_filter_fail_open (keepMask : List Bool) (snippets : List String)
    (h : snippets ≠ []) :
    filterIrrelevantSnippets keepMask snippets ≠ [] ∧
    (keepMask.length ≠ snippets.length →
      filterIrrelevantSnippets keepMask snippets = snippets) ∧
    (applyMask snippets keepMask = [] →
      filterIrrelevantSnippets keepMask snippets = snippets) := by
  have hiE : snippets.isEmpty = false := by
    cases snippets
    · exact absurd rfl h
    · rfl
  by_cases hlen : keepMask.length = snippets.length
  · by_cases hkept : applyMask snippets keepMask = []
    · have hres : filterIrrelevantSnippets keepMask snippets = snippets := by
        simp [filterIrrelevantSnippets, hiE, hlen, hkept]
      exact ⟨by rw [hres]; exact h, fun hc => absurd hlen hc, fun _ => hres⟩
    · have hres : filterIrrelevantSnippets keepMask snippets = applyMask snippets keepMask := by
        simp [filterIrrelevantSnippets, hiE, hlen, hkept]
      exact ⟨by rw [hres]; exact hkept, fun hc => absurd hlen hc, fun hc => absurd hc hkept⟩
  · have hres : filterIrrelevantSnippets keepMask snippets = snippets := by
      simp [filterIrrelevantSnippets, hiE, hlen, applyMask_replicate_true, h]
    exact ⟨by rw [hres]; exact h, fun _ => hres, fun _ => hres⟩

/-- Witness for C2: a mask that would drop everything, a mask of the wrong
length, and a partial mask, on a concrete two-snippet list. -/
theorem relevance_filter_fail_open_witness :
    filterIrrelevantSnippets [false, false] ["a", "b"] ≠ [] ∧
    filterIrrelevantSnippets [true] ["a", "b"] = ["a", "b"] ∧
    filterIrrelevantSnippets [false, false] ["a", "b"] = ["a", "b"] :=
  ⟨(relevance_filter_fail_open [false, false] ["a", "b"] (by decide)).1,
   (relevance_filter_fail_open [true] ["a", "b"] (by decide)).2.1 (by decide),
   (relevance_filter_fail_open [false, false] ["a", "b"] (by decide)).2.2 (by decide)⟩

/-! ### C10 — relevance filter output is a subsequence of its input -/

/-- C10: for every case (i.e. every keep-mask the model round trip yields)
the relevance filter's output is a subsequence of its input: elements come
from the input in order, never rewritten, reordered, or duplicated. -/
theorem relevance_filter_subsequence (keepMask : List Bool) (snippets : List String) :
    (filterIrrelevantSnippets keepMask snippets).Sublist snippets := by
  unfold filterIrrelevantSnippets
  by_cases hiE : snippets.isEmpty
  · simp [hiE]
  · simp only [hiE, Bool.false_eq_true, if_false]
    repeat' split
    all_goals first
      | exact List.Sublist.refl _
      | exact applyMask_sublist _ _

/-! ### C8 — query refiner error handling -/

/-- C8 counterexample: `refine_query` can return the empty string for a
prompt that is non-empty after trimming, when the completed call's message
content is empty — the claim that every non-empty prompt yields a non-empty
refined string fails. -/
theorem refine_query_empty_content_counterexample :
    pyStrip "left knee pain" ≠ "" ∧ refineQuery (.ok "") "left knee pain" = "" := by
  decide

/-- C8 as amended: `refine_query` is total (never throws); input empty after
trimming returns the empty string whatever the call would do (no call
observable); any call failure returns the literal error-marker string; and a
successful call with content non-empty after trimming yields a non-empty
result. -/
theorem refine_query_behavior (o : Except String String) (p : String) :
    (pyStrip p = "" → refineQuery o p = "" ∧ ∀ o2, refineQuery o p = refineQuery o2 p) ∧
    (pyStrip p ≠ "" → ∀ e, refineQuery (.error e) p = "❌ Error: " ++ e) ∧
    (pyStrip p ≠ "" → ∀ c, pyStrip c ≠ "" → refineQuery (.ok c) p ≠ "") := by
  refine ⟨fun hp => ⟨by simp [refineQuery, hp], fun o2 => by simp [refineQuery, hp]⟩,
    fun hp e => by simp [refineQuery, hp],
    fun hp c hc => by simp [refineQuery, hp, hc]⟩

/-- Witness for C8: concrete error and success calls on a non-empty prompt. -/
theorem refine_query_behavior_witness :
    refineQuery (.error "boom") "knee" = "❌ Error: boom" ∧
    refineQuery (.ok " Trauma, Knee ") "knee" ≠ "" ∧
    refineQuery (.ok "x") "  " = "" :=
  ⟨(refine_query_behavior (.error "boom") "knee").2.1 (by decide) "boom",
   (refine_query_behavior (.ok " Trauma, Knee ") "knee").2.2 (by decide)
     " Trauma, Knee " (by decide),
   ((refine_query_behavior (.ok "x") "  ").1 (by decide)).1⟩

/-! ### C9 — empty prompt short-circuits the endpoint -/

/-- C9: a prompt that is empty after trimming makes `case_prep` return
`{pimpQuestions: [], otherUsefulFacts: [no-prompt sentinel], anatomy: null}`
with an empty call trace — no refinement, embedding, vector-store, or LLM
call is issued, and the result does not depend on any downstream stage. -/
theorem case_prep_empty_prompt {α : Type} (refineFn : String → String)
    (retrieveFn : String → List SnippetItem)
    (caseprepFn : String → List SnippetItem → List String × List String)
    (anatomyFn : String → List SnippetItem → α)
    (promptRaw : String) (h : pyStrip promptRaw = "") :
    casePrep refineFn retrieveFn caseprepFn anatomyFn promptRaw =
      (⟨[], ["❌ No prompt provided"], none⟩, []) := by
  simp [casePrep, h]

/-- Witness for C9 at a whitespace-only prompt with concrete stages. -/
theorem case_prep_empty_prompt_witness :
    casePrep (fun s => s) (fun _ => []) (fun _ _ => ([], []))
        (fun _ _ => (0 : Nat)) " \t " =
      (⟨[], ["❌ No prompt provided"], none⟩, []) :=
  case_prep_empty_prompt (fun s => s) (fun _ => []) (fun _ _ => ([], []))
    (fun _ _ => (0 : Nat)) " \t " (by decide)

/-! ### C3 — importance ranking returns a permutation -/

/-- The repaired score vector always matches the item count. -/
theorem repairScores_length (scores : List ℚ) (n : Nat) :
    (repairScores scores n).length = n := by
  simp [repairScores]
  omega

/-- Stable descending insertion permutes `p :: l`. -/
theorem insertDescStable_perm (p : ℚ × String) (l : List (ℚ × String)) :
    (insertDescStable p l).Perm (p :: l) := by
  induction l with
  | nil => exact List.Perm.refl _
  | cons q rest ih =>
    unfold insertDescStable
    by_cases hq : q.1 < p.1
    · simp [hq]
    · simp only [hq, if_false]
      exact (ih.cons q).trans (List.Perm.swap p q rest)

/-- The stable descending sort permutes its input. -/
theorem sortDescStable_perm (l : List (ℚ × String)) :
    (sortDescStable l).Perm l := by
  induction l with
  | nil => exact List.Perm.refl _
  | cons p rest ih =>
    exact (insertDescStable_perm p (sortDescStable rest)).trans (ih.cons p)

/-- A cache hit returns the score vector of an entry whose key matches. -/
theorem rankCacheFind_eq_some {cache : RankCache} {key : RankKey} {v : List ℚ}
    (h : rankCacheFind cache key = some v) :
    ∃ e ∈ cache, e.1 = key ∧ e.2 = v := by
  unfold rankCacheFind at h
  cases hf : cache.find? (fun e => e.1 == key) with
  | none => rw [hf] at h; cases h
  | some e =>
    rw [hf] at h
    refine ⟨e, List.mem_of_find?_eq_some hf, ?_, ?_⟩
    · have := List.find?_some hf
      simpa using this
    · simpa using h

/-- C3: `ImportanceRanker.rank` returns a permutation of its input items —
same multiset, same length, never dropping or duplicating — for every case
text, item list, label, model score vector, and well-formed cache. -/
theorem importance_rank_perm (cache : RankCache) (modelScores : List ℚ)
    (caseText label : String) (items : List String) (hwf : WFRankCache cache) :
    ((ImportanceRanker.rank cache modelScores caseText label items).1).Perm items := by
  unfold ImportanceRanker.rank
  set key : RankKey := (caseText, label, items) with hkey
  have hlen : (match rankCacheFind cache key with
      | some v => v
      | none => repairScores modelScores items.length).length = items.length := by
    cases hfind : rankCacheFind cache key with
    | none => simp [repairScores_length]
    | some v =>
      obtain ⟨e, hmem, hek, hev⟩ := rankCacheFind_eq_some hfind
      have := hwf e hmem
      rw [hek, hev, hkey] at this
      simpa using this
  have hperm := (sortDescStable_perm ((match rankCacheFind cache key with
      | some v => v
      | none => repairScores modelScores items.length).zip items)).map Prod.snd
  rw [List.map_snd_zip _ _ (le_of_eq hlen.symm)] at hperm
  simpa using hperm

/-- Witness for C3 on an empty cache and concrete items. -/
theorem importance_rank_perm_witness :
    ((ImportanceRanker.rank [] [1, 99] "tka case" "questions" ["a", "b"]).1).Perm
      ["a", "b"] :=
  importance_rank_perm [] [1, 99] "tka case" "questions" ["a", "b"]
    (fun e he => absurd he (List.not_mem_nil e))

/-! ### C7 — metadata filter builder characterization -/

/-- Inserting into the modelled set never empties it. -/
theorem insertUnique_ne_nil (l : List String) (x : String) : insertUnique l x ≠ [] := by
  by_cases hx : x ∈ l
  · have hl : l ≠ [] := by
      intro hnil
      rw [hnil] at hx
      exact absurd hx (List.not_mem_nil x)
    simpa [insertUnique, hx] using hl
  · simp [insertUnique, hx]

/-- Updating with a non-empty alias list (or from a non-empty set) never
empties the modelled set. -/
theorem insertAllUnique_ne_nil (xs l : List String) (h : l ≠ [] ∨ xs ≠ []) :
    insertAllUnique l xs ≠ [] := by
  induction xs generalizing l with
  | nil =>
    rcases h with hl | hx
    · simpa [insertAllUnique] using hl
    · exact absurd rfl hx
  | cons v vs ih =>
    have : insertAllUnique l (v :: vs) = insertAllUnique (insertUnique l v) vs := rfl
    rw [this]
    exact ih (insertUnique l v) (Or.inl (insertUnique_ne_nil l v))

/-- Every alias list in `region_map` is non-empty. -/
theorem regionMap_values_ne_nil {t : String} {vs : List String}
    (h : lookupAssoc regionMap t = some vs) : vs ≠ [] := by
  unfold lookupAssoc at h
  cases hf : regionMap.find? (fun e => e.1 == t) with
  | none => rw [hf] at h; cases h
  | some e =>
    rw [hf] at h
    have hmem := List.mem_of_find?_eq_some hf
    have hev : e.2 = vs := by simpa using h
    have hall : ∀ e ∈ regionMap, e.2 ≠ ([] : List String) := by decide
    rw [← hev]
    exact hall e hmem

/-- The specialty accumulator is empty iff it started empty and no token is a
`specialty_map` key. -/
theorem foldl_selStep_fst_nil (tokens : List String) : ∀ (ss rs : List String),
    (tokens.foldl selStep (ss, rs)).1 = [] ↔
      (ss = [] ∧ ∀ t ∈ tokens, lookupAssoc specialtyMap t = none) := by
  induction tokens with
  | nil => intro ss rs; simp
  | cons t ts ih =>
    intro ss rs
    rw [List.foldl_cons]
    cases hstep : selStep (ss, rs) t with
    | mk ss' rs' =>
      have hss' : ss' = (selStep (ss, rs) t).1 := by rw [hstep]
      rw [ih ss' rs']
      cases hlook : lookupAssoc specialtyMap t with
      | none =>
        have hse : ss' = ss := by rw [hss']; simp [selStep, hlook]
        subst hse
        simp [List.forall_mem_cons, hlook]
      | some v =>
        have hse : ss' = insertUnique ss v := by rw [hss']; simp [selStep, hlook]
        constructor
        · rintro ⟨hne, -⟩
          rw [hse] at hne
          exact absurd hne (insertUnique_ne_nil ss v)
        · rintro ⟨-, hall⟩
          have hcontra := hall t (by simp)
          rw [hlook] at hcontra
          cases hcontra

/-- The region accumulator is empty iff it started empty and no token is a
`region_map` key. -/
theorem foldl_selStep_snd_nil (tokens : List String) : ∀ (ss rs : List String),
    (tokens.foldl selStep (ss, rs)).2 = [] ↔
      (rs = [] ∧ ∀ t ∈ tokens, lookupAssoc regionMap t = none) := by
  induction tokens with
  | nil => intro ss rs; simp
  | cons t ts ih =>
    intro ss rs
    rw [List.foldl_cons]
    cases hstep : selStep (ss, rs) t with
    | mk ss' rs' =>
      have hrs' : rs' = (selStep (ss, rs) t).2 := by rw [hstep]
      rw [ih ss' rs']
      cases hlook : lookupAssoc regionMap t with
      | none =>
        have hre : rs' = rs := by rw [hrs']; simp [selStep, hlook]
        subst hre
        simp [List.forall_mem_cons, hlook]
      | some vs =>
        have hre : rs' = insertAllUnique rs vs := by rw [hrs']; simp [selStep, hlook]
        constructor
        · rintro ⟨hne, -⟩
          rw [hre] at hne
          exact absurd hne
            (insertAllUnique_ne_nil vs rs (Or.inr (regionMap_values_ne_nil hlook)))
        · rintro ⟨-, hall⟩
          have hcontra := hall t (by simp)
          rw [hlook] at hcontra
          cases hcontra


/-- Closed form of `_build_metadata_filter_from_query` in terms of the two
accumulated sets. -/
theorem buildMetadataFilter_eq (q : String) :
    buildMetadataFilterFromQuery q =
      (if (selectedSets (queryTokens q)).1 = [] ∧ (selectedSets (queryTokens q)).2 = []
       then none
       else if (selectedSets (queryTokens q)).2 = []
       then some (mkClause "specialty" (selectedSets (queryTokens q)).1)
       else if (selectedSets (queryTokens q)).1 = []
       then some (mkClause "region" (selectedSets (queryTokens q)).2)
       else some (.andF [mkClause "specialty" (selectedSets (queryTokens q)).1,
                         mkClause "region" (selectedSets (queryTokens q)).2])) := by
  unfold buildMetadataFilterFromQuery
  by_cases htok : (queryTokens q).isEmpty
  · have hnil : queryTokens q = [] := by simpa [List.isEmpty_iff] using htok
    have : selectedSets (queryTokens q) = ([], []) := by rw [hnil]; rfl
    simp [htok, this]
  · simp only [htok, Bool.false_eq_true, if_false]
    by_cases hss : (selectedSets (queryTokens q)).1 = [] <;>
      by_cases hrs : (selectedSets (queryTokens q)).2 = [] <;>
      simp [hss, hrs, List.isEmpty_iff]

/-- C7: `_build_metadata_filter_from_query` is deterministic and pure; it
tokenizes on commas and lowercases; tokens matching neither static map are
silently ignored; it accumulates a set of canonical specialties and a set of
canonical region aliases, builds one clause per non-empty set (`$eq` for a
singleton set, `$in` otherwise), combines two clauses with `$and`, and
returns `null` exactly when no token matched either map. -/
theorem build_metadata_filter_characterization (q : String) :
    (buildMetadataFilterFromQuery q = none ↔
      ∀ t ∈ queryTokens q,
        lookupAssoc specialtyMap t = none ∧ lookupAssoc regionMap t = none) ∧
    (∀ f, buildMetadataFilterFromQuery q = some f →
      ((selectedSets (queryTokens q)).1 ≠ [] ∧ (selectedSets (queryTokens q)).2 = [] ∧
        f = mkClause "specialty" (selectedSets (queryTokens q)).1) ∨
      ((selectedSets (queryTokens q)).1 = [] ∧ (selectedSets (queryTokens q)).2 ≠ [] ∧
        f = mkClause "region" (selectedSets (queryTokens q)).2) ∨
      ((selectedSets (queryTokens q)).1 ≠ [] ∧ (selectedSets (queryTokens q)).2 ≠ [] ∧
        f = .andF [mkClause "specialty" (selectedSets (queryTokens q)).1,
                   mkClause "region" (selectedSets (queryTokens q)).2])) ∧
    (∀ field v, mkClause field [v] = .eqF field v) ∧
    (∀ field vs, vs.length ≠ 1 → mkClause field vs = .inF field vs) := by
  have hfst : (selectedSets (queryTokens q)).1 = [] ↔
      ∀ t ∈ queryTokens q, lookupAssoc specialtyMap t = none := by
    simpa [selectedSets] using foldl_selStep_fst_nil (queryTokens q) [] []
  have hsnd : (selectedSets (queryTokens q)).2 = [] ↔
      ∀ t ∈ queryTokens q, lookupAssoc regionMap t = none := by
    simpa [selectedSets] using foldl_selStep_snd_nil (queryTokens q) [] []
  refine ⟨?_, ?_, ?_, ?_⟩
  · rw [buildMetadataFilter_eq]
    by_cases hss : (selectedSets (queryTokens q)).1 = [] <;>
      by_cases hrs : (selectedSets (queryTokens q)).2 = [] <;>
      simp only [hss, hrs, and_self, if_true, if_false, true_and, false_and, and_false,
        not_true, not_false_iff]
    · simp only [true_iff]
      intro t ht
      exact ⟨hfst.mp hss t ht, hsnd.mp hrs t ht⟩
    all_goals
      simp only [reduceCtorEq, false_iff]
    all_goals
      intro hall
    · exact hrs (hsnd.mpr (fun t ht => (hall t ht).2))
    · exact hss (hfst.mpr (fun t ht => (hall t ht).1))
    · exact hss (hfst.mpr (fun t ht => (hall t ht).1))
  · intro f hf
    rw [buildMetadataFilter_eq] at hf
    by_cases hss : (selectedSets (queryTokens q)).1 = [] <;>
      by_cases hrs : (selectedSets (queryTokens q)).2 = []
    · simp [hss, hrs] at hf
    · simp only [hss, hrs, and_false, if_false, if_true, Option.some.injEq] at hf
      exact Or.inr (Or.inl ⟨hss, hrs, hf.symm⟩)
    · simp only [hss, hrs, false_and, if_false, if_true, Option.some.injEq] at hf
      exact Or.inl ⟨hss, hrs, hf.symm⟩
    · simp only [hss, hrs, false_and, and_false, if_false, Option.some.injEq] at hf
      exact Or.inr (Or.inr ⟨hss, hrs, hf.symm⟩)
  · intro field v
    rfl
  · intro field vs hlen
    match vs with
    | [] => rfl
    | [v] => exact absurd rfl hlen
    | v1 :: v2 :: rest => rfl

/-- Witness for C7: a query with no recognized tokens builds a null filter,
derived from the characterization. -/
theorem build_metadata_filter_characterization_witness :
    buildMetadataFilterFromQuery "bimalleolar fracture, open reduction" = none :=
  (build_metadata_filter_characterization
    "bimalleolar fracture, open reduction").1.mpr (by decide)

/-! ### C4 — score filtering, dedup, and cap -/

/-- The generic `seen`-set loop equals first-seen-wins dedup of the elements
whose key is not yet seen. -/
theorem seenLoop_eq {α β γ : Type} [DecidableEq β] (key : α → β) (out : α → γ) :
    ∀ (l : List α) (seen : List β),
      seenLoop key out l seen =
        (firstSeenBy key (l.filter (fun y => key y ∉ seen))).map out := by
  intro l
  induction l with
  | nil => intro seen; simp [seenLoop, firstSeenBy]
  | cons x xs ih =>
    intro seen
    by_cases hx : key x ∈ seen
    · have hfe : (x :: xs).filter (fun y => key y ∉ seen) =
          xs.filter (fun y => key y ∉ seen) := by
        simp [List.filter_cons, hx]
      rw [hfe, ← ih seen]
      simp [seenLoop, hx]
    · have hfe : (x :: xs).filter (fun y => key y ∉ seen) =
          x :: xs.filter (fun y => key y ∉ seen) := by
        simp [List.filter_cons, hx]
      rw [hfe]
      unfold firstSeenBy
      have hff : (xs.filter (fun y => key y ∉ seen)).filter (fun y => key y ≠ key x) =
          xs.filter (fun y => key y ∉ key x :: seen) := by
        rw [List.filter_filter]
        apply List.filter_congr
        intro y _
        by_cases h1 : key y ∈ seen <;> by_cases h2 : key y = key x <;>
          simp [h1, h2, List.mem_cons]
      rw [hff]
      simp only [List.map_cons, ← ih (key x :: seen)]
      simp [seenLoop, hx]

/-- The `_score_matches` dedup loop is an instance of the generic loop. -/
theorem dedupLoop_eq_seenLoop : ∀ (l : List VMatch) (seen : List String),
    dedupLoop l seen = seenLoop sigOfMatch toItem l seen := by
  intro l
  induction l with
  | nil => intro seen; rfl
  | cons m rest ih =>
    intro seen
    unfold dedupLoop seenLoop
    by_cases h : sigOfMatch m ∈ seen <;> simp [h, ih]

/-- C4 as amended: `_score_matches` keeps exactly the matches with score at
least `MIN_SCORE` and non-empty metadata text, drops every later match whose
dedup signature — lowercased newline-collapsed text, first 8 fields after
splitting on single space characters, joined — equals an earlier kept
match's signature (first-seen wins, vector-store rank order preserved), and
caps the result at 500 items. -/
theorem score_matches_characterization (ms : List VMatch) :
    scoreMatches ms = ((firstSeenBy sigOfMatch (ms.filter keepMatch)).map toItem).take 500 := by
  unfold scoreMatches
  rw [dedupLoop_eq_seenLoop, seenLoop_eq]
  have : (ms.filter keepMatch).filter (fun y => sigOfMatch y ∉ ([] : List String)) =
      ms.filter keepMatch := by
    simp
  rw [this]

/-- C4 counterexample: two matches whose signatures agree under the spec's
whitespace-delimited tokenization (the first text contains a tab) but differ
under the source's split on single space characters — the source keeps both,
while the claim says the later one is dropped. -/
theorem score_dedup_whitespace_counterexample :
    dedupSigSpec "a\tb c d e f g h i" = dedupSigSpec "a b c d e f g h i" ∧
    (scoreMatches
      [⟨1, ⟨some "a\tb c d e f g h i", none, none, none, none, none⟩⟩,
       ⟨1, ⟨some "a b c d e f g h i", none, none, none, none, none⟩⟩]).length = 2 := by
  decide

/-! ### C6 — Q/A formatting and dedup -/

/-- Appending the question mark changes the string. -/
theorem append_qmark_ne (s : String) : s ++ "?" ≠ s := by
  intro h
  have hl := congrArg String.length h
  rw [String.length_append] at hl
  have hq : "?".length = 1 := rfl
  omega

/-- `_ensure_question_mark`, unfolded. -/
theorem ensureQuestionMark_eq (q : String) :
    ensureQuestionMark q =
      if normalizeSpace q ≠ "" ∧ ¬endsWithChar (normalizeSpace q) '?' ∧
          interrogMatch (normalizeSpace q)
      then normalizeSpace q ++ "?" else normalizeSpace q := rfl

/-- The question loop of `_reformat_snippets` is an instance of the generic
`seen`-set loop over the formatted strings. -/
theorem processQAsLoop_eq_seenLoop : ∀ (raw : List RawQAObj) (seen : List String),
    processQAsLoop raw seen = seenLoop qaKey id (raw.filterMap qaFormatted) seen := by
  intro raw
  induction raw with
  | nil => intro seen; rfl
  | cons x rest ih =>
    intro seen
    cases x with
    | notDict => simpa [processQAsLoop, qaFormatted] using ih seen
    | obj qo ao =>
      by_cases hq : pyStrip (qo.getD "") = ""
      · simpa [processQAsLoop, qaFormatted, hq] using ih seen
      · simp only [processQAsLoop, qaFormatted, hq, if_false, List.filterMap_cons,
          seenLoop, qaKey, id_eq]
        by_cases hseen : pyLower (normalizeSpace (formatQA (qo.getD "") (ao.getD ""))) ∈ seen
        · simpa [hseen] using ih seen
        · simpa [hseen] using
            ih (pyLower (normalizeSpace (formatQA (qo.getD "") (ao.getD ""))) :: seen)

/-- C6 as amended: a formatted question gets a trailing `?` appended exactly
when it reads as an interrogative (the fixed lead-word list) and does not
already end in a question mark; the answer is whitespace-normalized (with a
placeholder when empty); and a pair whose lowercased whitespace-collapsed
`Q: ... A: ...` string duplicates an earlier pair is dropped, first-seen
wins. -/
theorem format_qa_characterization (q a : String) (rawQs : List RawQAObj) :
    (ensureQuestionMark q ≠ normalizeSpace q ↔
      (normalizeSpace q ≠ "" ∧ ¬endsWithChar (normalizeSpace q) '?' ∧
        interrogMatch (normalizeSpace q))) ∧
    (ensureQuestionMark q = normalizeSpace q ∨
      ensureQuestionMark q = normalizeSpace q ++ "?") ∧
    (formatQA q a = "Q: " ++ ensureQuestionMark q ++ " A: " ++
      (if normalizeSpace a ≠ "" then normalizeSpace a else "(answer not provided)")) ∧
    (processQAs rawQs = firstSeenBy qaKey (rawQs.filterMap qaFormatted)) := by
  refine ⟨?_, ?_, rfl, ?_⟩
  · rw [ensureQuestionMark_eq]
    by_cases hcond : normalizeSpace q ≠ "" ∧ ¬endsWithChar (normalizeSpace q) '?' ∧
        interrogMatch (normalizeSpace q)
    · rw [if_pos hcond]
      exact iff_of_true (append_qmark_ne (normalizeSpace q)) hcond
    · rw [if_neg hcond]
      exact iff_of_false (fun hne => hne rfl) hcond
  · rw [ensureQuestionMark_eq]
    by_cases hcond : normalizeSpace q ≠ "" ∧ ¬endsWithChar (normalizeSpace q) '?' ∧
        interrogMatch (normalizeSpace q)
    · exact Or.inr (if_pos hcond)
    · exact Or.inl (if_neg hcond)
  · rw [processQAs, processQAsLoop_eq_seenLoop, seenLoop_eq]
    simp

/-- C6 counterexample: the question "What is the KL grade." already carries
terminal punctuation (a period), yet the source appends "?" because it only
tests for a trailing question mark — refuting "appends exactly when the
question lacks terminal punctuation". -/
theorem ensure_question_mark_counterexample :
    endsWithChar "What is the KL grade." '.' = true ∧
    ensureQuestionMark "What is the KL grade." = "What is the KL grade.?" := by
  decide

/-! ### C5 — snippet preparation: cleaning and budget packing -/

/-- `packCost` over a cons cell. -/
theorem packCost_cons (s : String) (l : List String) :
    packCost (s :: l) = (s.length + 1) + packCost l := by
  simp [packCost]

/-- The `_prepare_snippets` loop factors through cleaning: it equals the
string-level loop on `filterMap cleanSnip`. -/
theorem prepGo_eq_prefixGo (b : Nat) : ∀ (snips : List RawSnip) (ne : Bool) (total : Nat),
    prepGo b snips ne total = prefixGo b (snips.filterMap cleanSnip) ne total := by
  intro snips
  induction snips with
  | nil => intro ne total; rfl
  | cons raw rest ih =>
    intro ne total
    cases hc : cleanSnip raw with
    | none => simp [prepGo, hc, List.filterMap_cons, ih]
    | some s =>
      simp only [prepGo, hc, List.filterMap_cons, prefixGo]
      by_cases hcond : ne ∧ total + (s.length + 1) > b
      · simp [hcond]
      · simp [hcond, ih]

/-- The string-level loop emits a prefix of its input. -/
theorem prefixGo_is_prefix_of (b : Nat) : ∀ (l : List String) (ne : Bool) (total : Nat),
    ∃ rest, l = prefixGo b l ne total ++ rest := by
  intro l
  induction l with
  | nil => intro ne total; exact ⟨[], rfl⟩
  | cons s rest ih =>
    intro ne total
    simp only [prefixGo]
    by_cases hcond : ne ∧ total + (s.length + 1) > b
    · exact ⟨s :: rest, by simp [hcond]⟩
    · obtain ⟨tail, htail⟩ := ih true (total + (s.length + 1))
      exact ⟨tail, by simp [hcond]; exact htail⟩

/-- With the `cleaned`-nonempty flag down, the loop emits nothing iff there
is nothing to emit (the first cleaned snippet is admitted unconditionally). -/
theorem prefixGo_false_nil_iff (b : Nat) (l : List String) (total : Nat) :
    prefixGo b l false total = [] ↔ l = [] := by
  cases l with
  | nil => simp [prefixGo]
  | cons s rest => simp [prefixGo]

/-- Budget bound: once the flag is up (or at least two snippets were
emitted), the running total stays within the budget. -/
theorem prefixGo_cost (b : Nat) : ∀ (l : List String) (ne : Bool) (total : Nat),
    (ne = true → prefixGo b l ne total ≠ [] →
      total + packCost (prefixGo b l ne total) ≤ b) ∧
    (2 ≤ (prefixGo b l ne total).length →
      total + packCost (prefixGo b l ne total) ≤ b) := by
  intro l
  induction l with
  | nil => intro ne total; simp [prefixGo, packCost]
  | cons s rest ih =>
    intro ne total
    simp only [prefixGo]
    by_cases hcond : ne ∧ total + (s.length + 1) > b
    · simp [hcond, packCost]
    · simp only [hcond, if_false]
      have hnb : ¬(ne = true ∧ total + (s.length + 1) > b) := hcond
      constructor
      · intro hne _
        have hfit : total + (s.length + 1) ≤ b := by
          by_contra hgt
          exact hnb ⟨hne, by omega⟩
        rcases hout : prefixGo b rest true (total + (s.length + 1)) with _ | ⟨t, ts⟩
        · rw [packCost_cons]
          have hz : packCost [] = 0 := rfl
          omega
        · have htail := (ih true (total + (s.length + 1))).1 rfl (by simp [hout])
          rw [hout] at htail
          rw [packCost_cons]
          omega
      · intro hlen
        have hout : prefixGo b rest true (total + (s.length + 1)) ≠ [] := by
          intro hnil
          rw [hnil] at hlen
          simp at hlen
        have htail := (ih true (total + (s.length + 1))).1 rfl hout
        rw [packCost_cons]
        omega

/-- Maximality: when a cleaned snippet is left over, it did not fit. -/
theorem prefixGo_maximal (b : Nat) : ∀ (l : List String) (ne : Bool) (total : Nat) (next : String),
    (l.drop (prefixGo b l ne total).length).head? = some next →
    b < total + packCost (prefixGo b l ne total) + (next.length + 1) := by
  intro l
  induction l with
  | nil => intro ne total next h; simp at h
  | cons s rest ih =>
    intro ne total next h
    simp only [prefixGo] at h ⊢
    by_cases hcond : ne ∧ total + (s.length + 1) > b
    · rw [if_pos hcond] at h
      simp only [List.length_nil, List.drop_zero, List.head?_cons, Option.some.injEq] at h
      subst h
      rw [if_pos hcond]
      have hz : packCost [] = 0 := rfl
      have hgt := hcond.2
      omega
    · rw [if_neg hcond] at h
      simp only [List.length_cons, List.drop_succ_cons] at h
      have := ih true (total + (s.length + 1)) next h
      rw [if_neg hcond, packCost_cons]
      omega

/-- C5 as amended: `_prepare_snippets` cleans each snippet and keeps a
greedy *prefix* of the cleaned snippets under the character budget: the
first cleaned snippet is always kept, each further snippet is appended
while the running character total (each snippet costing its length plus
one) stays within the budget, and the first snippet that does not fit ends
processing — it and every later snippet are dropped; no further batch is
started.  Input order is preserved. -/
theorem prepare_snippets_greedy_truncation (snips : List RawSnip) (charBudget : Nat) :
    (∃ rest, snips.filterMap cleanSnip = prepareSnippets snips charBudget ++ rest) ∧
    (prepareSnippets snips charBudget = [] ↔ snips.filterMap cleanSnip = []) ∧
    (2 ≤ (prepareSnippets snips charBudget).length →
      packCost (prepareSnippets snips charBudget) ≤ charBudget) ∧
    (∀ next,
      ((snips.filterMap cleanSnip).drop (prepareSnippets snips charBudget).length).head? =
        some next →
      charBudget < packCost (prepareSnippets snips charBudget) + (next.length + 1)) := by
  have heq : prepareSnippets snips charBudget =
      prefixGo charBudget (snips.filterMap cleanSnip) false 0 :=
    prepGo_eq_prefixGo charBudget snips false 0
  refine ⟨?_, ?_, ?_, ?_⟩
  · rw [heq]
    exact prefixGo_is_prefix_of charBudget (snips.filterMap cleanSnip) false 0
  · rw [heq]
    exact prefixGo_false_nil_iff charBudget (snips.filterMap cleanSnip) 0
  · rw [heq]
    intro hlen
    have := (prefixGo_cost charBudget (snips.filterMap cleanSnip) false 0).2 hlen
    omega
  · intro next hnext
    rw [heq] at hnext ⊢
    have := prefixGo_maximal charBudget (snips.filterMap cleanSnip) false 0 next hnext
    omega

/-- Staged evaluation of `_strip_noise` on the 12-character test snippet
(the passes are evaluated one at a time to keep kernel reduction shallow). -/
theorem stripNoise_a12 : stripNoise "aaaaaaaaaaaa" = "aaaaaaaaaaaa" := by
  have h1 : stripCodeFences "aaaaaaaaaaaa".toList = "aaaaaaaaaaaa".toList := by decide
  have h2 : stripTags "aaaaaaaaaaaa".toList = "aaaaaaaaaaaa".toList := by decide
  have h3 : stripLeadingBullets "aaaaaaaaaaaa".toList = "aaaaaaaaaaaa".toList := by decide
  have h4 : squashRuleRuns "aaaaaaaaaaaa".toList = "aaaaaaaaaaaa".toList := by decide
  have h5 : collapseWs "aaaaaaaaaaaa".toList = "aaaaaaaaaaaa".toList := by decide
  have h6 : pyStripL "aaaaaaaaaaaa".toList = "aaaaaaaaaaaa".toList := by decide
  unfold stripNoise
  rw [h1, h2, h3, h4, h5, h6]
  rfl

/-- The 12-character test snippet survives cleaning unchanged. -/
theorem cleanSnip_a12 : cleanSnip (RawSnip.str "aaaaaaaaaaaa") = some "aaaaaaaaaaaa" := by
  show (if (stripNoise "aaaaaaaaaaaa").length < 10 then none
        else some (pyTake (stripNoise "aaaaaaaaaaaa") PER_SNIP_LIMIT)) = some "aaaaaaaaaaaa"
  rw [stripNoise_a12]
  decide

/-- `_prepare_snippets` on the two 12-character test snippets with budget 20
keeps only the first. -/
theorem prepareSnippets_a12_budget20 :
    prepareSnippets [RawSnip.str "aaaaaaaaaaaa", RawSnip.str "aaaaaaaaaaaa"] 20 =
      ["aaaaaaaaaaaa"] := by
  show prepGo 20 [RawSnip.str "aaaaaaaaaaaa", RawSnip.str "aaaaaaaaaaaa"] false 0 =
    ["aaaaaaaaaaaa"]
  simp only [prepGo, cleanSnip_a12]
  decide

/-- Witness for C5's amended theorem on a concrete two-snippet input with
budget 20: the output is a prefix of the cleaned list, and the leftover
snippet exceeds the budget. -/
theorem prepare_snippets_greedy_truncation_witness :
    (∃ rest, [RawSnip.str "aaaaaaaaaaaa", RawSnip.str "aaaaaaaaaaaa"].filterMap cleanSnip =
      prepareSnippets [RawSnip.str "aaaaaaaaaaaa", RawSnip.str "aaaaaaaaaaaa"] 20 ++ rest) ∧
    20 < packCost (prepareSnippets [RawSnip.str "aaaaaaaaaaaa", RawSnip.str "aaaaaaaaaaaa"] 20) +
      ("aaaaaaaaaaaa".length + 1) :=
  ⟨(prepare_snippets_greedy_truncation [RawSnip.str "aaaaaaaaaaaa", RawSnip.str "aaaaaaaaaaaa"] 20).1,
   (prepare_snippets_greedy_truncation [RawSnip.str "aaaaaaaaaaaa", RawSnip.str "aaaaaaaaaaaa"] 20).2.2.2
     "aaaaaaaaaaaa" (by
       simp only [List.filterMap_cons, List.filterMap_nil, cleanSnip_a12,
         prepareSnippets_a12_budget20]
       decide)⟩

/-- C5 counterexample: with budget 20 and two snippets whose cleaned form is
12 characters each, the source keeps only the first and drops the second
entirely, while greedy bin-packing as the claim describes it would start a
second batch containing the second snippet. -/
theorem prepare_snippets_no_batching_counterexample :
    cleanSnip (RawSnip.str "aaaaaaaaaaaa") = some "aaaaaaaaaaaa" ∧
    prepareSnippets [RawSnip.str "aaaaaaaaaaaa", RawSnip.str "aaaaaaaaaaaa"] 20 =
      ["aaaaaaaaaaaa"] ∧
    greedyBinPackSpec 20 ["aaaaaaaaaaaa", "aaaaaaaaaaaa"] =
      [["aaaaaaaaaaaa"], ["aaaaaaaaaaaa"]] := by
  exact ⟨cleanSnip_a12, prepareSnippets_a12_budget20, by decide⟩
